import Mathlib

/-!
# Verification of the realtime drawing canvas server core

Shallow embedding of the server-side core of the realtime collaborative
drawing canvas (history engine `drawing-state.js`, room directory
`rooms.js`, and the socket event dispatch of `server.js`), together with
proofs of the specified properties.

Conventions of the embedding:
* JavaScript arrays become `List`; `Array.prototype.slice(0, e)` becomes
  `jsSlice`, including JavaScript's negative-end-index semantics.
* `historyIndex` is a JavaScript number used as an integer; it is embedded
  as `Int` (it legitimately takes the value `-1`).
* JavaScript `Map` (insertion-ordered, keyed) becomes an association list
  with `assocGet`/`assocSet`/`assocDelete`; `Map.prototype.set` on an
  existing key keeps its position, matching JavaScript's iteration order.
* Mutating methods become functions returning the updated value; methods
  returning a boolean success flag return a pair `(state, flag)`.
* Stroke point coordinates are embedded as `Int`; no operation of the core
  computes with them, they are opaque payload.
-/

/-- `Array.prototype.slice(0, e)` of JavaScript: the first `e` elements,
where a negative `e` counts from the end (clamped at 0). -/
def jsSlice (l : List α) (e : Int) : List α :=
  l.take (if e < 0 then ((l.length : Int) + e).toNat else e.toNat)

/-- A point of a stroke, `{x, y}` in canvas-local coordinates. -/
structure Point where
  x : Int
  y : Int
deriving DecidableEq, Repr

/-- A stroke object as the clients send it: tool, color, width and the
ordered point sequence. -/
structure Stroke where
  tool : String
  color : String
  width : Nat
  points : List Point
deriving DecidableEq, Repr

/-- The state of `DrawingState` (drawing-state.js): the stroke log and the
current visible position in the history. -/
structure DrawingState where
  strokes : List Stroke
  historyIndex : Int
deriving DecidableEq, Repr

/-- The `DrawingState` constructor: `strokes = []`, `historyIndex = -1`. -/
def DrawingState.init : DrawingState := ⟨[], -1⟩

/-- `DrawingState.addStroke`: `this.strokes = this.strokes.slice(0,
this.historyIndex + 1); this.strokes.push(stroke); this.historyIndex++`. -/
def DrawingState.addStroke (s : DrawingState) (stroke : Stroke) : DrawingState :=
  { strokes := jsSlice s.strokes (s.historyIndex + 1) ++ [stroke],
    historyIndex := s.historyIndex + 1 }

/-- `DrawingState.undo`: if `historyIndex > -1` decrement it and return
`true`, else return `false`. -/
def DrawingState.undo (s : DrawingState) : DrawingState × Bool :=
  if s.historyIndex > -1 then
    ({ s with historyIndex := s.historyIndex - 1 }, true)
  else
    (s, false)

/-- `DrawingState.redo`: if `historyIndex < strokes.length - 1` increment it
and return `true`, else return `false`. -/
def DrawingState.redo (s : DrawingState) : DrawingState × Bool :=
  if s.historyIndex < (s.strokes.length : Int) - 1 then
    ({ s with historyIndex := s.historyIndex + 1 }, true)
  else
    (s, false)

/-- `DrawingState.getVisibleStrokes`: `this.strokes.slice(0,
this.historyIndex + 1)`. -/
def DrawingState.getVisibleStrokes (s : DrawingState) : List Stroke :=
  jsSlice s.strokes (s.historyIndex + 1)

/-- `DrawingState.getAllState`: `{strokes: this.strokes, historyIndex:
this.historyIndex}`. -/
def DrawingState.getAllState (s : DrawingState) : List Stroke × Int :=
  (s.strokes, s.historyIndex)

/-- `DrawingState.clear`: `strokes = []`, `historyIndex = -1`. -/
def DrawingState.clear (_ : DrawingState) : DrawingState := ⟨[], -1⟩

/-- The documented bounds invariant of the history engine:
`-1 <= historyIndex <= strokes.length - 1`. -/
def DrawingState.WF (s : DrawingState) : Prop :=
  -1 ≤ s.historyIndex ∧ s.historyIndex ≤ (s.strokes.length : Int) - 1

instance (s : DrawingState) : Decidable s.WF := by
  unfold DrawingState.WF; infer_instance

/-- One call of the history engine's mutating interface. -/
inductive HistoryOp where
  | addStroke (stroke : Stroke)
  | undo
  | redo
  | clear
deriving DecidableEq, Repr

/-- Apply one call to the engine, discarding the success flag. -/
def applyOp (s : DrawingState) (op : HistoryOp) : DrawingState :=
  match op with
  | .addStroke stroke => s.addStroke stroke
  | .undo => s.undo.1
  | .redo => s.redo.1
  | .clear => s.clear

/-- Run a call sequence on a freshly constructed engine. -/
def runOps (ops : List HistoryOp) : DrawingState :=
  ops.foldl applyOp DrawingState.init

/-- `n` repeated `redo()` calls. -/
def redoN (n : Nat) (s : DrawingState) : DrawingState :=
  match n with
  | 0 => s
  | n + 1 => redoN n s.redo.1

/-- `n` repeated `undo()` calls. -/
def undoN (n : Nat) (s : DrawingState) : DrawingState :=
  match n with
  | 0 => s
  | n + 1 => undoN n s.undo.1

/-! ## Association lists, embedding JavaScript `Map` -/

/-- `Map.prototype.get` / `Map.prototype.has`. -/
def assocGet [DecidableEq κ] (l : List (κ × α)) (k : κ) : Option α :=
  match l with
  | [] => none
  | (k', v) :: rest => if k' = k then some v else assocGet rest k

/-- `Map.prototype.set`: overwrite in place when the key is present
(JavaScript keeps the original insertion position), append otherwise. -/
def assocSet [DecidableEq κ] (l : List (κ × α)) (k : κ) (v : α) : List (κ × α) :=
  match l with
  | [] => [(k, v)]
  | (k', v') :: rest => if k' = k then (k, v) :: rest else (k', v') :: assocSet rest k v

/-- `Map.prototype.delete` (keys are unique in all uses here). -/
def assocDelete [DecidableEq κ] (l : List (κ × α)) (k : κ) : List (κ × α) :=
  match l with
  | [] => []
  | (k', v') :: rest => if k' = k then rest else (k', v') :: assocDelete rest k

/-! ## Room directory (rooms.js) -/

/-- A user entry of a room: `{id, username, color, cursor}`. Socket ids are
embedded as `Nat`. -/
structure User where
  id : Nat
  username : String
  color : String
  cursor : Point
deriving DecidableEq, Repr

/-- A room of the directory: `{name, users, drawingState}`. -/
structure Room where
  name : String
  users : List (Nat × User)
  drawingState : DrawingState
deriving DecidableEq, Repr

/-- The `RoomManager` state: the map of active rooms keyed by room name. -/
structure RoomManager where
  rooms : List (String × Room)
deriving DecidableEq, Repr

/-- The `RoomManager` constructor: no rooms. -/
def RoomManager.init : RoomManager := ⟨[]⟩

/-- `RoomManager.getOrCreateRoom`: create `{name, users: new Map(),
drawingState: new DrawingState()}` when absent, then return the stored
room. The updated manager is returned alongside. -/
def RoomManager.getOrCreateRoom (m : RoomManager) (roomName : String) : RoomManager × Room :=
  match assocGet m.rooms roomName with
  | some room => (m, room)
  | none =>
    let room : Room := ⟨roomName, [], DrawingState.init⟩
    (⟨assocSet m.rooms roomName room⟩, room)

/-- `RoomManager.addUserToRoom`: `getOrCreateRoom`, then
`room.users.set(socketId, {id, username, color, cursor: {x:0, y:0}})`,
returning the room. -/
def RoomManager.addUserToRoom (m : RoomManager) (roomName : String) (socketId : Nat)
    (username color : String) : RoomManager × Room :=
  let p := m.getOrCreateRoom roomName
  let room := { p.2 with
    users := assocSet p.2.users socketId ⟨socketId, username, color, ⟨0, 0⟩⟩ }
  (⟨assocSet p.1.rooms roomName room⟩, room)

/-- `RoomManager.removeUserFromRoom`: when the room exists, delete the user
and delete the whole room when `users.size === 0` afterwards; otherwise do
nothing. -/
def RoomManager.removeUserFromRoom (m : RoomManager) (roomName : String) (socketId : Nat) :
    RoomManager :=
  match assocGet m.rooms roomName with
  | none => m
  | some room =>
    let room := { room with users := assocDelete room.users socketId }
    if room.users.length = 0 then ⟨assocDelete m.rooms roomName⟩
    else ⟨assocSet m.rooms roomName room⟩

/-- `RoomManager.updateUserCursor`: overwrite the user's cursor when both
the room and the user exist; otherwise do nothing. -/
def RoomManager.updateUserCursor (m : RoomManager) (roomName : String) (socketId : Nat)
    (x y : Int) : RoomManager :=
  match assocGet m.rooms roomName with
  | none => m
  | some room =>
    match assocGet room.users socketId with
    | none => m
    | some u =>
      let room := { room with users := assocSet room.users socketId { u with cursor := ⟨x, y⟩ } }
      ⟨assocSet m.rooms roomName room⟩

/-- `RoomManager.getRoomUsers`: the room's user values in insertion order,
`[]` for an unknown room. -/
def RoomManager.getRoomUsers (m : RoomManager) (roomName : String) : List User :=
  match assocGet m.rooms roomName with
  | none => []
  | some room => room.users.map (·.2)

/-- `RoomManager.getRoom`: lookup, `undefined` becomes `none`. -/
def RoomManager.getRoom (m : RoomManager) (roomName : String) : Option Room :=
  assocGet m.rooms roomName

/-! ## Session coordinator (server.js socket handlers) -/

/-- The per-connection closure state of `io.on('connection')`:
`currentRoom` (initially `null`) and the socket.io rooms this socket has
`join`ed (socket.io's own membership, distinct from the room manager's). -/
structure Conn where
  currentRoom : Option String
  sioRooms : List String
deriving DecidableEq, Repr

/-- The whole server state: the room manager singleton and the connected
sockets (insertion-ordered, keyed by socket id). -/
structure ServerState where
  manager : RoomManager
  conns : List (Nat × Conn)
deriving DecidableEq, Repr

/-- Server at startup: no rooms, no connections. -/
def ServerState.init : ServerState := ⟨RoomManager.init, []⟩

/-- Outbound socket.io events the server emits, with their payloads. -/
inductive OutEvent where
  | roomJoined (userId : Nat) (color : String) (users : List User)
      (drawingState : List Stroke × Int)
  | userJoined (id : Nat) (username color : String)
  | usersUpdate (users : List User)
  | draw (stroke : Stroke)
  | cursorUpdate (userId : Nat) (x y : Int)
  | undo (historyIndex : Int)
  | redo (historyIndex : Int)
  | clearCanvas
  | userLeft (id : Nat)
deriving DecidableEq, Repr

/-- Inbound events, each carrying the originating socket id. `connect`
models a socket connecting; `joinRoom` carries the color that
`generateUserColor()` happened to pick (a random oracle input). -/
inductive InEvent where
  | connect (sid : Nat)
  | joinRoom (sid : Nat) (roomName username color : String)
  | draw (sid : Nat) (stroke : Stroke)
  | cursorMove (sid : Nat) (x y : Int)
  | undo (sid : Nat)
  | redo (sid : Nat)
  | clearCanvas (sid : Nat)
  | disconnect (sid : Nat)
deriving DecidableEq, Repr

/-- The socket ids currently in socket.io room `r`, in connection order. -/
def roomMembers (conns : List (Nat × Conn)) (r : String) : List Nat :=
  (conns.filter (fun p => r ∈ p.2.sioRooms)).map (·.1)

/-- `socket.to(r).emit(ev)`: every member of socket.io room `r` except the
originator receives `ev`. -/
def broadcastExcept (conns : List (Nat × Conn)) (r : String) (sid : Nat) (ev : OutEvent) :
    List (Nat × OutEvent) :=
  ((roomMembers conns r).filter (· ≠ sid)).map (·, ev)

/-- `io.to(r).emit(ev)`: every member of socket.io room `r` receives `ev`. -/
def broadcastAll (conns : List (Nat × Conn)) (r : String) (ev : OutEvent) :
    List (Nat × OutEvent) :=
  (roomMembers conns r).map (·, ev)

/-- One step of the socket.io dispatch of server.js: the updated server
state and the emitted `(recipient, event)` pairs, in emission order. -/
def handleEvent (st : ServerState) (ev : InEvent) : ServerState × List (Nat × OutEvent) :=
  match ev with
  | .connect sid =>
    ({ st with conns := assocSet st.conns sid ⟨none, []⟩ }, [])
  | .joinRoom sid roomName username color =>
    match assocGet st.conns sid with
    | none => (st, [])
    | some conn =>
      let conn : Conn :=
        { currentRoom := some roomName,
          sioRooms := if roomName ∈ conn.sioRooms then conn.sioRooms
                      else conn.sioRooms ++ [roomName] }
      let conns := assocSet st.conns sid conn
      let p := st.manager.addUserToRoom roomName sid username color
      let msgs :=
        (sid, OutEvent.roomJoined sid color (p.1.getRoomUsers roomName)
          p.2.drawingState.getAllState)
        :: broadcastExcept conns roomName sid (.userJoined sid username color)
        ++ broadcastExcept conns roomName sid (.usersUpdate (p.1.getRoomUsers roomName))
      (⟨p.1, conns⟩, msgs)
  | .draw sid stroke =>
    match assocGet st.conns sid with
    | none => (st, [])
    | some conn =>
      match conn.currentRoom with
      | none => (st, [])
      | some r =>
        match st.manager.getRoom r with
        | none => (st, [])
        | some room =>
          let room := { room with drawingState := room.drawingState.addStroke stroke }
          ({ st with manager := ⟨assocSet st.manager.rooms r room⟩ },
            broadcastExcept st.conns r sid (.draw stroke))
  | .cursorMove sid x y =>
    match assocGet st.conns sid with
    | none => (st, [])
    | some conn =>
      match conn.currentRoom with
      | none => (st, [])
      | some r =>
        ({ st with manager := st.manager.updateUserCursor r sid x y },
          broadcastExcept st.conns r sid (.cursorUpdate sid x y))
  | .undo sid =>
    match assocGet st.conns sid with
    | none => (st, [])
    | some conn =>
      match conn.currentRoom with
      | none => (st, [])
      | some r =>
        match st.manager.getRoom r with
        | none => (st, [])
        | some room =>
          let q := room.drawingState.undo
          if q.2 then
            ({ st with manager := ⟨assocSet st.manager.rooms r { room with drawingState := q.1 }⟩ },
              broadcastAll st.conns r (.undo q.1.historyIndex))
          else (st, [])
  | .redo sid =>
    match assocGet st.conns sid with
    | none => (st, [])
    | some conn =>
      match conn.currentRoom with
      | none => (st, [])
      | some r =>
        match st.manager.getRoom r with
        | none => (st, [])
        | some room =>
          let q := room.drawingState.redo
          if q.2 then
            ({ st with manager := ⟨assocSet st.manager.rooms r { room with drawingState := q.1 }⟩ },
              broadcastAll st.conns r (.redo q.1.historyIndex))
          else (st, [])
  | .clearCanvas sid =>
    match assocGet st.conns sid with
    | none => (st, [])
    | some conn =>
      match conn.currentRoom with
      | none => (st, [])
      | some r =>
        match st.manager.getRoom r with
        | none => (st, [])
        | some room =>
          let room := { room with drawingState := room.drawingState.clear }
          ({ st with manager := ⟨assocSet st.manager.rooms r room⟩ },
            broadcastAll st.conns r .clearCanvas)
  | .disconnect sid =>
    match assocGet st.conns sid with
    | none => (st, [])
    | some conn =>
      match conn.currentRoom with
      | none => ({ st with conns := assocDelete st.conns sid }, [])
      | some r =>
        let manager := st.manager.removeUserFromRoom r sid
        let msgs :=
          broadcastExcept st.conns r sid (.userLeft sid)
          ++ broadcastExcept st.conns r sid (.usersUpdate (manager.getRoomUsers r))
        (⟨manager, assocDelete st.conns sid⟩, msgs)

/-- Run an inbound trace from server startup, accumulating every emitted
`(recipient, event)` pair in order. -/
def runServer (evs : List InEvent) : ServerState × List (Nat × OutEvent) :=
  evs.foldl (fun acc ev =>
    let p := handleEvent acc.1 ev
    (p.1, acc.2 ++ p.2)) (ServerState.init, [])

/-! ## Concrete fixtures used by scenario conjuncts and witnesses -/

/-- Concrete strokes used by witnesses. -/
def sA : Stroke := ⟨"brush", "#FF6B6B", 2, [⟨0, 0⟩, ⟨1, 1⟩]⟩

def sB : Stroke := ⟨"brush", "#4ECDC4", 3, [⟨2, 2⟩]⟩

def sC : Stroke := ⟨"eraser", "#000000", 10, [⟨3, 3⟩]⟩

def sD : Stroke := ⟨"brush", "#45B7D1", 1, [⟨4, 4⟩]⟩

/-- Concrete one-room, one-user manager used by witnesses. -/
def mW : RoomManager := (RoomManager.init.addUserToRoom "r" 1 "u" "#FF6B6B").1

/-- The room stored in `mW`. -/
def roomW : Room := ⟨"r", [(1, ⟨1, "u", "#FF6B6B", ⟨0, 0⟩⟩)], DrawingState.init⟩

/-- A server with socket 1 joined to room `"a"`. -/
def stJoined : ServerState := (runServer [.connect 1, .joinRoom 1 "a" "u" "#FF6B6B"]).1

/-- A server with socket 1 connected but not joined anywhere. -/
def stUnjoined : ServerState := (runServer [.connect 1]).1

/-- A server with sockets 1 (`u1`) and 2 (`u2`) joined to room `"r"`. -/
def st2 : ServerState :=
  (runServer [.connect 1, .joinRoom 1 "r" "u1" "#FF6B6B", .connect 2,
    .joinRoom 2 "r" "u2" "#4ECDC4"]).1

/-- The room of `st2` as stored in its manager. -/
def room2 : Room :=
  ⟨"r", [(1, ⟨1, "u1", "#FF6B6B", ⟨0, 0⟩⟩), (2, ⟨2, "u2", "#4ECDC4", ⟨0, 0⟩⟩)],
    DrawingState.init⟩

/-- A server where user 1 drew `[A, B]` in room `"r"` and undid once
(`historyIndex = 0`), and socket 2 has connected but not yet joined. -/
def st7 : ServerState :=
  (runServer [.connect 1, .joinRoom 1 "r" "u1" "#FF6B6B", .draw 1 sA, .draw 1 sB,
    .undo 1, .connect 2]).1

/-! ## Helper lemmas about the history engine -/

lemma jsSlice_of_nonneg (l : List α) (e : Int) (he : 0 ≤ e) :
    jsSlice l e = l.take e.toNat := by
  unfold jsSlice
  rw [if_neg (by omega)]

lemma jsSlice_length_of_le {l : List α} {e : Int} (he : 0 ≤ e)
    (hle : e ≤ (l.length : Int)) : ((jsSlice l e).length : Int) = e := by
  rw [jsSlice_of_nonneg l e he, List.length_take]
  have : e.toNat ≤ l.length := by omega
  rw [min_eq_left this]
  omega

lemma undo_fst_strokes (s : DrawingState) : s.undo.1.strokes = s.strokes := by
  unfold DrawingState.undo
  split <;> rfl

lemma redo_fst_strokes (s : DrawingState) : s.redo.1.strokes = s.strokes := by
  unfold DrawingState.redo
  split <;> rfl

lemma redoN_strokes (n : Nat) (s : DrawingState) : (redoN n s).strokes = s.strokes := by
  induction n generalizing s with
  | zero => rfl
  | succ n ih => rw [redoN, ih, redo_fst_strokes]

lemma undoN_fixed (s : DrawingState) (h : s.undo = (s, false)) (n : Nat) :
    undoN n s = s := by
  induction n with
  | zero => rfl
  | succ n ih => rw [undoN, h, ih]

lemma redoN_fixed (s : DrawingState) (h : s.redo = (s, false)) (n : Nat) :
    redoN n s = s := by
  induction n with
  | zero => rfl
  | succ n ih => rw [redoN, h, ih]

lemma wf_applyOp (s : DrawingState) (op : HistoryOp) (h : s.WF) : (applyOp s op).WF := by
  obtain ⟨h1, h2⟩ := h
  cases op with
  | addStroke stroke =>
    have hlen : ((jsSlice s.strokes (s.historyIndex + 1)).length : Int)
        = s.historyIndex + 1 :=
      jsSlice_length_of_le (by omega) (by omega)
    refine ⟨by simp [applyOp, DrawingState.addStroke]; omega, ?_⟩
    simp only [applyOp, DrawingState.addStroke, List.length_append, List.length_cons,
      List.length_nil]
    push_cast
    omega
  | undo =>
    simp only [applyOp, DrawingState.undo]
    split <;> exact ⟨by simp; omega, by simp; omega⟩
  | redo =>
    simp only [applyOp, DrawingState.redo]
    split <;> exact ⟨by simp; omega, by simp; omega⟩
  | clear =>
    exact ⟨by simp [applyOp, DrawingState.clear], by simp [applyOp, DrawingState.clear]⟩

lemma wf_foldl (ops : List HistoryOp) (s : DrawingState) (h : s.WF) :
    (ops.foldl applyOp s).WF := by
  induction ops generalizing s with
  | nil => exact h
  | cons op rest ih => exact ih _ (wf_applyOp s op h)

/-! ## Helper lemmas about association lists -/

lemma assocGet_assocSet_self [DecidableEq κ] (l : List (κ × α)) (k : κ) (v : α) :
    assocGet (assocSet l k v) k = some v := by
  induction l with
  | nil => simp [assocSet, assocGet]
  | cons p rest ih =>
    obtain ⟨k', v'⟩ := p
    by_cases h : k' = k
    · subst h
      simp [assocSet, assocGet]
    · simp [assocSet, assocGet, h, ih]

lemma assocSet_eq_of_get [DecidableEq κ] (l : List (κ × α)) (k : κ) (v : α)
    (h : assocGet l k = some v) : assocSet l k v = l := by
  induction l with
  | nil => simp [assocGet] at h
  | cons p rest ih =>
    obtain ⟨k', v'⟩ := p
    by_cases hk : k' = k
    · subst hk
      simp [assocGet] at h
      simp [assocSet, h]
    · simp [assocGet, hk] at h
      simp [assocSet, hk, ih h]

lemma assocDelete_eq_of_get_none [DecidableEq κ] (l : List (κ × α)) (k : κ)
    (h : assocGet l k = none) : assocDelete l k = l := by
  induction l with
  | nil => rfl
  | cons p rest ih =>
    obtain ⟨k', v'⟩ := p
    by_cases hk : k' = k
    · simp [assocGet, hk] at h
    · simp [assocGet, hk] at h
      simp [assocDelete, hk, ih h]

lemma assocGet_eq_none_of_not_mem [DecidableEq κ] (l : List (κ × α)) (k : κ)
    (h : k ∉ l.map Prod.fst) : assocGet l k = none := by
  induction l with
  | nil => rfl
  | cons p rest ih =>
    obtain ⟨k', v'⟩ := p
    simp only [List.map_cons, List.mem_cons, not_or] at h
    have hk : k' ≠ k := fun e => h.1 e.symm
    simp [assocGet, hk, ih h.2]

lemma assocGet_assocDelete_of_nodup [DecidableEq κ] (l : List (κ × α)) (k : κ)
    (h : (l.map Prod.fst).Nodup) : assocGet (assocDelete l k) k = none := by
  induction l with
  | nil => rfl
  | cons p rest ih =>
    obtain ⟨k', v'⟩ := p
    simp only [List.map_cons, List.nodup_cons] at h
    by_cases hk : k' = k
    · subst hk
      simp only [assocDelete, if_pos rfl]
      exact assocGet_eq_none_of_not_mem rest k' h.1
    · simp [assocDelete, hk, assocGet, ih h.2]

lemma length_assocSet_of_get [DecidableEq κ] (l : List (κ × α)) (k : κ) (v v' : α)
    (h : assocGet l k = some v') : (assocSet l k v).length = l.length := by
  induction l with
  | nil => simp [assocGet] at h
  | cons p rest ih =>
    obtain ⟨k', v''⟩ := p
    by_cases hk : k' = k
    · subst hk
      simp [assocSet]
    · simp [assocGet, hk] at h
      simp [assocSet, hk, ih h]

/-! ## Helper lemmas about fan-out -/

lemma mem_map_pair (l : List Nat) (ev : OutEvent) (m : Nat) :
    (m, ev) ∈ l.map (·, ev) ↔ m ∈ l := by
  simp [List.mem_map]

lemma mem_broadcastExcept (conns : List (Nat × Conn)) (r : String) (sid m : Nat)
    (ev : OutEvent) :
    (m, ev) ∈ broadcastExcept conns r sid ev ↔ m ∈ roomMembers conns r ∧ m ≠ sid := by
  unfold broadcastExcept
  rw [mem_map_pair, List.mem_filter]
  simp

lemma mem_broadcastAll (conns : List (Nat × Conn)) (r : String) (m : Nat)
    (ev : OutEvent) :
    (m, ev) ∈ broadcastAll conns r ev ↔ m ∈ roomMembers conns r := by
  unfold broadcastAll
  rw [mem_map_pair]

/-! ## Claims about the history engine -/

/-- C1: `addStroke(s)` truncates `strokes` to its first `historyIndex+1`
elements, appends `s`, and afterwards `historyIndex = length(strokes) - 1`;
from `strokes=[A,B,C]`, `historyIndex=2`, `undo()` then `addStroke(D)`
yields `strokes=[A,B,D]`, `historyIndex=2`, and no sequence of `redo()`
calls brings `C` back. `addStroke` is total (never fails). -/
theorem c1_addStroke_truncates (s : DrawingState) (stroke A B C D : Stroke) (h : s.WF) :
    ((s.addStroke stroke).strokes = s.strokes.take (s.historyIndex + 1).toNat ++ [stroke]
      ∧ ((s.addStroke stroke).historyIndex : Int)
          = ((s.addStroke stroke).strokes.length : Int) - 1)
  ∧ (((DrawingState.mk [A, B, C] 2).undo.1.addStroke D).strokes = [A, B, D]
      ∧ ((DrawingState.mk [A, B, C] 2).undo.1.addStroke D).historyIndex = 2
      ∧ ∀ n : Nat,
          (redoN n ((DrawingState.mk [A, B, C] 2).undo.1.addStroke D)).strokes
            = [A, B, D]) := by
  obtain ⟨h1, h2⟩ := h
  have hslice : jsSlice s.strokes (s.historyIndex + 1)
      = s.strokes.take (s.historyIndex + 1).toNat :=
    jsSlice_of_nonneg _ _ (by omega)
  have hlen : ((jsSlice s.strokes (s.historyIndex + 1)).length : Int)
      = s.historyIndex + 1 := jsSlice_length_of_le (by omega) (by omega)
  have hconcrete : (DrawingState.mk [A, B, C] 2).undo.1.addStroke D
      = DrawingState.mk [A, B, D] 2 := by
    simp [DrawingState.undo, DrawingState.addStroke, jsSlice]
  refine ⟨⟨by rw [DrawingState.addStroke, hslice], ?_⟩, ?_, ?_, ?_⟩
  · simp only [DrawingState.addStroke, List.length_append, List.length_cons,
      List.length_nil]
    push_cast
    omega
  · rw [hconcrete]
  · rw [hconcrete]
  · intro n
    rw [hconcrete, redoN_strokes]

/-- Witness for C1 at the concrete spec scenario `[A,B,C]`, index 2. -/
theorem c1_witness :
    ((DrawingState.mk [sA, sB, sC] 2).undo.1.addStroke sD).strokes = [sA, sB, sD] :=
  (c1_addStroke_truncates ⟨[sA, sB, sC], 2⟩ sD sA sB sC sD (by decide)).2.1

/-- C2: a fresh or cleared engine is `strokes=[]`, `historyIndex=-1`, and
after every finite sequence of `addStroke`/`undo`/`redo`/`clear` calls from
a fresh engine, `-1 <= historyIndex <= length(strokes) - 1` holds. -/
theorem c2_bounds_invariant :
    (DrawingState.init.strokes = [] ∧ DrawingState.init.historyIndex = -1)
  ∧ (∀ s : DrawingState, s.clear.strokes = [] ∧ s.clear.historyIndex = -1)
  ∧ (∀ ops : List HistoryOp, (runOps ops).WF) := by
  refine ⟨⟨rfl, rfl⟩, fun s => ⟨rfl, rfl⟩, fun ops => ?_⟩
  exact wf_foldl ops DrawingState.init (by decide)

/-- C5: `undo()` succeeds (decrementing `historyIndex` by 1) exactly when
`historyIndex > -1` and fails leaving the state unchanged at
`historyIndex = -1`; `redo()` succeeds (incrementing by 1) exactly when
`historyIndex < length(strokes) - 1` and fails unchanged otherwise;
failures at either boundary are idempotent under repetition, and neither
operation ever modifies `strokes`. -/
theorem c5_undo_redo_boundaries (s : DrawingState) :
    (s.historyIndex > -1 →
      s.undo = ({ s with historyIndex := s.historyIndex - 1 }, true))
  ∧ (s.historyIndex = -1 → s.undo = (s, false))
  ∧ (s.historyIndex < (s.strokes.length : Int) - 1 →
      s.redo = ({ s with historyIndex := s.historyIndex + 1 }, true))
  ∧ (¬ s.historyIndex < (s.strokes.length : Int) - 1 → s.redo = (s, false))
  ∧ s.undo.1.strokes = s.strokes
  ∧ s.redo.1.strokes = s.strokes
  ∧ (s.historyIndex = -1 → ∀ n : Nat, undoN n s = s)
  ∧ (¬ s.historyIndex < (s.strokes.length : Int) - 1 → ∀ n : Nat, redoN n s = s) := by
  refine ⟨fun hgt => ?_, fun heq => ?_, fun hlt => ?_, fun hge => ?_,
    undo_fst_strokes s, redo_fst_strokes s, fun heq n => ?_, fun hge n => ?_⟩
  · rw [DrawingState.undo, if_pos hgt]
  · rw [DrawingState.undo, if_neg (by omega)]
  · rw [DrawingState.redo, if_pos hlt]
  · rw [DrawingState.redo, if_neg hge]
  · exact undoN_fixed s (by rw [DrawingState.undo, if_neg (by omega)]) n
  · exact redoN_fixed s (by rw [DrawingState.redo, if_neg hge]) n

/-- C6: `getVisibleStrokes()` is exactly the prefix
`strokes[0 .. historyIndex]`: it equals `strokes.take (historyIndex+1)`,
its length is `historyIndex + 1`, and it is `[]` at `historyIndex = -1`.
(It is produced by `Array.prototype.slice`, hence a fresh copy; the pure
embedding reflects that later engine mutation is not observable through a
previously returned value.) -/
theorem c6_visible_is_take (s : DrawingState) (h : s.WF) :
    s.getVisibleStrokes = s.strokes.take (s.historyIndex + 1).toNat
  ∧ ((s.getVisibleStrokes.length : Int)) = s.historyIndex + 1
  ∧ (s.historyIndex = -1 → s.getVisibleStrokes = []) := by
  obtain ⟨h1, h2⟩ := h
  refine ⟨jsSlice_of_nonneg _ _ (by omega), jsSlice_length_of_le (by omega) (by omega),
    fun heq => ?_⟩
  rw [DrawingState.getVisibleStrokes, jsSlice_of_nonneg _ _ (by omega), heq]
  simp

/-- Witness for C6 at `strokes=[A,B]`, `historyIndex=0`. -/
theorem c6_witness :
    ((DrawingState.mk [sA, sB] 0).getVisibleStrokes.length : Int) = 0 + 1 :=
  (c6_visible_is_take ⟨[sA, sB], 0⟩ (by decide)).2.1

/-- C10: from any state satisfying the bounds invariant, a successful
`undo()` is exactly inverted by the `redo()` that follows it (which
necessarily succeeds), and symmetrically a successful `redo()` is exactly
inverted by the following `undo()`. -/
theorem c10_undo_redo_roundtrip (s : DrawingState) (h : s.WF) :
    (s.undo.2 = true → s.undo.1.redo.2 = true ∧ s.undo.1.redo.1 = s)
  ∧ (s.redo.2 = true → s.redo.1.undo.2 = true ∧ s.redo.1.undo.1 = s) := by
  obtain ⟨h1, h2⟩ := h
  constructor
  · intro hu
    have hgt : s.historyIndex > -1 := by
      by_contra hle
      rw [DrawingState.undo, if_neg hle] at hu
      exact Bool.false_ne_true hu
    rw [DrawingState.undo, if_pos hgt]
    rw [DrawingState.redo]
    simp only
    rw [if_pos (by simp; omega)]
    constructor
    · rfl
    · cases s
      simp
  · intro hr
    have hlt : s.historyIndex < (s.strokes.length : Int) - 1 := by
      by_contra hge
      rw [DrawingState.redo, if_neg hge] at hr
      exact Bool.false_ne_true hr
    rw [DrawingState.redo, if_pos hlt]
    rw [DrawingState.undo]
    simp only
    rw [if_pos (by omega)]
    constructor
    · rfl
    · cases s
      simp

/-- Witness for C10 at `strokes=[A]`, `historyIndex=0`: undo then redo
restores the state. -/
theorem c10_witness :
    (DrawingState.mk [sA] 0).undo.1.redo.1 = DrawingState.mk [sA] 0 :=
  ((c10_undo_redo_roundtrip ⟨[sA], 0⟩ (by decide)).1 (by decide)).2

/-! ## Claims about the room directory -/

/-- C8 (amended): `getOrCreateRoom` called twice returns the same stored
room and leaves the manager unchanged; `removeUserFromRoom` on an unknown
room is a no-op; on a known room it deletes the user entry, and deletes
the whole room exactly when the membership is empty afterwards (so `getRoom`
then returns `none` and a following `getOrCreateRoom` returns a fresh room
with an empty engine); with an unknown user it is a no-op provided the room
still has at least one member. The key-uniqueness hypothesis is the
representation invariant of the JavaScript `Map` of rooms. -/
theorem c8_room_lifecycle (m : RoomManager) (r : String) (u : Nat)
    (hnd : (m.rooms.map Prod.fst).Nodup) :
    (((m.getOrCreateRoom r).1.getOrCreateRoom r).2 = (m.getOrCreateRoom r).2
      ∧ ((m.getOrCreateRoom r).1.getOrCreateRoom r).1 = (m.getOrCreateRoom r).1)
  ∧ (m.getRoom r = none → m.removeUserFromRoom r u = m)
  ∧ (∀ room : Room, m.getRoom r = some room →
      ((assocDelete room.users u).length = 0 →
        (m.removeUserFromRoom r u).getRoom r = none
        ∧ ((m.removeUserFromRoom r u).getOrCreateRoom r).2
            = ⟨r, [], DrawingState.init⟩)
      ∧ ((assocDelete room.users u).length ≠ 0 →
        (m.removeUserFromRoom r u).getRoom r
          = some { room with users := assocDelete room.users u })
      ∧ (assocGet room.users u = none → room.users ≠ [] →
        m.removeUserFromRoom r u = m)) := by
  refine ⟨?_, fun hnone => ?_, fun room hsome => ?_⟩
  · unfold RoomManager.getOrCreateRoom
    cases hget : assocGet m.rooms r with
    | some room => simp [hget]
    | none => simp [hget, assocGet_assocSet_self]
  · unfold RoomManager.removeUserFromRoom
    rw [RoomManager.getRoom] at hnone
    simp [hnone]
  · rw [RoomManager.getRoom] at hsome
    refine ⟨fun hzero => ?_, fun hnz => ?_, fun hu hne => ?_⟩
    · have hrm : m.removeUserFromRoom r u = ⟨assocDelete m.rooms r⟩ := by
        unfold RoomManager.removeUserFromRoom
        simp [hsome, hzero]
      have hgone : assocGet (assocDelete m.rooms r) r = none :=
        assocGet_assocDelete_of_nodup m.rooms r hnd
      constructor
      · rw [hrm, RoomManager.getRoom, hgone]
      · rw [hrm]
        unfold RoomManager.getOrCreateRoom
        simp [hgone]
    · unfold RoomManager.removeUserFromRoom
      simp [hsome, hnz, RoomManager.getRoom, assocGet_assocSet_self]
    · have hdel : assocDelete room.users u = room.users :=
        assocDelete_eq_of_get_none room.users u hu
      unfold RoomManager.removeUserFromRoom
      simp only [hsome, hdel]
      rw [if_neg (by simpa using hne)]
      have : assocSet m.rooms r room = m.rooms := assocSet_eq_of_get m.rooms r room hsome
      cases m
      simp_all

/-- C8 counterexample: on a room with no members (constructed by
`getOrCreateRoom` alone), `removeUserFromRoom` with a userId that is in no
room is not a no-op — it deletes the room. -/
theorem c8_counterexample :
    ((RoomManager.init.getOrCreateRoom "r").1.removeUserFromRoom "r" 5)
        ≠ (RoomManager.init.getOrCreateRoom "r").1
    ∧ ((RoomManager.init.getOrCreateRoom "r").1.removeUserFromRoom "r" 5).getRoom "r"
        = none
    ∧ (RoomManager.init.getOrCreateRoom "r").1.getRoom "r" ≠ none := by
  decide

/-- Witness for C8: removing the last user of `"r"` deletes the room. -/
theorem c8_witness : (mW.removeUserFromRoom "r" 1).getRoom "r" = none :=
  (((c8_room_lifecycle mW "r" 1 (by decide)).2.2 roomW (by decide)).1 (by decide)).1

/-- C9: `addUserToRoom` creates the room when absent, stores the entry
`{id, username, color, cursor: {0,0}}` under the user's id, returns the
stored room, and re-adding an existing userId overwrites the entry without
changing the membership size. -/
theorem c9_addUser (m : RoomManager) (r : String) (u : Nat) (username color : String) :
    (m.addUserToRoom r u username color).1.getRoom r
        = some (m.addUserToRoom r u username color).2
  ∧ assocGet (m.addUserToRoom r u username color).2.users u
        = some ⟨u, username, color, ⟨0, 0⟩⟩
  ∧ (m.getRoom r = none →
      (m.addUserToRoom r u username color).2
        = ⟨r, [(u, ⟨u, username, color, ⟨0, 0⟩⟩)], DrawingState.init⟩)
  ∧ (∀ (room : Room) (v : User), m.getRoom r = some room → assocGet room.users u = some v →
      (m.addUserToRoom r u username color).2.users.length = room.users.length) := by
  refine ⟨?_, ?_, fun hnone => ?_, fun room v hsome hv => ?_⟩
  · unfold RoomManager.addUserToRoom
    simp [RoomManager.getRoom, assocGet_assocSet_self]
  · unfold RoomManager.addUserToRoom
    simp [assocGet_assocSet_self]
  · rw [RoomManager.getRoom] at hnone
    unfold RoomManager.addUserToRoom RoomManager.getOrCreateRoom
    simp [hnone, assocSet]
  · rw [RoomManager.getRoom] at hsome
    unfold RoomManager.addUserToRoom RoomManager.getOrCreateRoom
    simp only [hsome]
    exact length_assocSet_of_get room.users u _ v hv

/-- Witness for C9: re-adding user 1 of `mW` keeps one member. -/
theorem c9_witness : (mW.addUserToRoom "r" 1 "w" "#4ECDC4").2.users.length
    = roomW.users.length :=
  (c9_addUser mW "r" 1 "w" "#4ECDC4").2.2.2 roomW ⟨1, "u", "#FF6B6B", ⟨0, 0⟩⟩
    (by decide) (by decide)

/-! ## Claims about the session coordinator -/

/-- C3: from a joined connection, `draw` is rebroadcast to the room minus
the originator (the originator receives nothing), while `undo`/`redo` are
broadcast on engine success to the whole room including the originator,
carrying the engine's post-operation `historyIndex` (which the server also
stores); on engine failure nothing is emitted. Concretely, with users 1
and 2 in `"r"` and one stroke drawn by 1, user 2 receives `draw` and user
1 does not, and after 1 sends `undo` both receive `undo{historyIndex:-1}`. -/
theorem c3_fanout (st : ServerState) (sid : Nat) (conn : Conn) (r : String)
    (room : Room) (stroke : Stroke)
    (hconn : assocGet st.conns sid = some conn)
    (hcur : conn.currentRoom = some r)
    (hroom : st.manager.getRoom r = some room)
    (hmem : sid ∈ roomMembers st.conns r) :
    ((handleEvent st (.draw sid stroke)).2 = broadcastExcept st.conns r sid (.draw stroke)
      ∧ (∀ ev : OutEvent, (sid, ev) ∉ (handleEvent st (.draw sid stroke)).2)
      ∧ (∀ mrec : Nat, mrec ∈ roomMembers st.conns r → mrec ≠ sid →
          (mrec, .draw stroke) ∈ (handleEvent st (.draw sid stroke)).2))
  ∧ (room.drawingState.undo.2 = true →
      (handleEvent st (.undo sid)).2
          = broadcastAll st.conns r (.undo room.drawingState.undo.1.historyIndex)
      ∧ (sid, .undo room.drawingState.undo.1.historyIndex)
          ∈ (handleEvent st (.undo sid)).2
      ∧ (∀ mrec : Nat, mrec ∈ roomMembers st.conns r →
          (mrec, .undo room.drawingState.undo.1.historyIndex)
            ∈ (handleEvent st (.undo sid)).2)
      ∧ (handleEvent st (.undo sid)).1.manager.getRoom r
          = some { room with drawingState := room.drawingState.undo.1 })
  ∧ (room.drawingState.undo.2 = false → handleEvent st (.undo sid) = (st, []))
  ∧ (room.drawingState.redo.2 = true →
      (handleEvent st (.redo sid)).2
          = broadcastAll st.conns r (.redo room.drawingState.redo.1.historyIndex)
      ∧ (∀ mrec : Nat, mrec ∈ roomMembers st.conns r →
          (mrec, .redo room.drawingState.redo.1.historyIndex)
            ∈ (handleEvent st (.redo sid)).2)
      ∧ (handleEvent st (.redo sid)).1.manager.getRoom r
          = some { room with drawingState := room.drawingState.redo.1 })
  ∧ (room.drawingState.redo.2 = false → handleEvent st (.redo sid) = (st, []))
  ∧ ((handleEvent st2 (.draw 1 sA)).2 = [(2, .draw sA)]
      ∧ (handleEvent (handleEvent st2 (.draw 1 sA)).1 (.undo 1)).2
          = [(1, .undo (-1)), (2, .undo (-1))]) := by
  have hroom' : assocGet st.manager.rooms r = some room := hroom
  have hdraw : (handleEvent st (.draw sid stroke)).2
      = broadcastExcept st.conns r sid (.draw stroke) := by
    simp [handleEvent, hconn, hcur, hroom]
  refine ⟨⟨hdraw, fun ev hmem' => ?_, fun mrec hm hne => ?_⟩,
    fun hu => ⟨?_, ?_, fun mrec hm => ?_, ?_⟩, fun hu => ?_,
    fun hr => ⟨?_, fun mrec hm => ?_, ?_⟩, fun hr => ?_, by decide, by decide⟩
  · rw [hdraw] at hmem'
    unfold broadcastExcept at hmem'
    obtain ⟨a, ha, heq⟩ := List.mem_map.mp hmem'
    have : a = sid := (Prod.mk.injEq _ _ _ _).mp heq |>.1
    subst this
    exact ((List.mem_filter.mp ha).2 |> decide_eq_true_eq.mp) rfl
  · rw [hdraw, mem_broadcastExcept]
    exact ⟨hm, hne⟩
  · simp [handleEvent, hconn, hcur, hroom, hu]
  · rw [(by simp [handleEvent, hconn, hcur, hroom, hu] :
      (handleEvent st (.undo sid)).2
        = broadcastAll st.conns r (.undo room.drawingState.undo.1.historyIndex)),
      mem_broadcastAll]
    exact hmem
  · rw [(by simp [handleEvent, hconn, hcur, hroom, hu] :
      (handleEvent st (.undo sid)).2
        = broadcastAll st.conns r (.undo room.drawingState.undo.1.historyIndex)),
      mem_broadcastAll]
    exact hm
  · simp [handleEvent, hconn, hcur, hroom', hu, RoomManager.getRoom, assocGet_assocSet_self]
  · simp [handleEvent, hconn, hcur, hroom, hu]
  · simp [handleEvent, hconn, hcur, hroom, hr]
  · rw [(by simp [handleEvent, hconn, hcur, hroom, hr] :
      (handleEvent st (.redo sid)).2
        = broadcastAll st.conns r (.redo room.drawingState.redo.1.historyIndex)),
      mem_broadcastAll]
    exact hm
  · simp [handleEvent, hconn, hcur, hroom', hr, RoomManager.getRoom, assocGet_assocSet_self]
  · simp [handleEvent, hconn, hcur, hroom, hr]

/-- Witness for C3: in `st2`, socket 1's `draw` is emitted exactly to the
room minus the originator. -/
theorem c3_witness :
    (handleEvent st2 (.draw 1 sA)).2 = broadcastExcept st2.conns "r" 1 (.draw sA) :=
  (c3_fanout st2 1 ⟨some "r", ["r"]⟩ "r" room2 sA (by decide) rfl (by decide)
    (by decide)).1.1

/-- C4 (amended): every `draw`, `cursor-move`, `undo`, `redo` or
`clear-canvas` event arriving on a connection whose `currentRoom` is still
`null` is silently ignored — no outbound event, no state change. (`join-room`
on an already-joined connection is NOT ignored; see the counterexample.) -/
theorem c4_unjoined_silently_ignored (st : ServerState) (sid : Nat)
    (h : ((assocGet st.conns sid).bind fun c => c.currentRoom) = none) :
    (∀ stroke : Stroke, handleEvent st (.draw sid stroke) = (st, []))
  ∧ (∀ x y : Int, handleEvent st (.cursorMove sid x y) = (st, []))
  ∧ handleEvent st (.undo sid) = (st, [])
  ∧ handleEvent st (.redo sid) = (st, [])
  ∧ handleEvent st (.clearCanvas sid) = (st, []) := by
  cases hget : assocGet st.conns sid with
  | none =>
    refine ⟨fun stroke => ?_, fun x y => ?_, ?_, ?_, ?_⟩ <;> simp [handleEvent, hget]
  | some conn =>
    rw [hget] at h
    simp only [Option.some_bind] at h
    refine ⟨fun stroke => ?_, fun x y => ?_, ?_, ?_, ?_⟩ <;> simp [handleEvent, hget, h]

/-- C4 counterexample: `join-room` on the already-joined socket 1 is
processed, not ignored — it emits events and reassigns `currentRoom`, so
`Joined` is not terminal. -/
theorem c4_counterexample :
    (handleEvent stJoined (.joinRoom 1 "b" "u" "#FF6B6B")).2 ≠ []
  ∧ ((assocGet stJoined.conns 1).bind fun c => c.currentRoom) = some "a"
  ∧ ((assocGet (handleEvent stJoined (.joinRoom 1 "b" "u" "#FF6B6B")).1.conns 1).bind
      fun c => c.currentRoom) = some "b" := by
  decide

/-- Witness for C4: `undo` from the connected-but-unjoined socket 1 is a
no-op with no emission. -/
theorem c4_witness : handleEvent stUnjoined (.undo 1) = (stUnjoined, []) :=
  (c4_unjoined_silently_ignored stUnjoined 1 (by decide)).2.2.1

/-- C7: the `room-joined` reply to a joining socket carries
`drawingState = getAllState()` of the room's engine verbatim — the full
`{strokes, historyIndex}` including the redo-pending tail, exactly the
engine state from before the join when the room already existed.
Concretely, after `addStroke(A)`, `addStroke(B)`, `undo()`, a joining
client receives `{strokes:[A,B], historyIndex:0}`. -/
theorem c7_late_join_snapshot (st : ServerState) (sid : Nat) (conn : Conn)
    (roomName username color : String)
    (hconn : assocGet st.conns sid = some conn) :
    (handleEvent st (.joinRoom sid roomName username color)).2.head?
        = some (sid, .roomJoined sid color
            ((st.manager.addUserToRoom roomName sid username color).1.getRoomUsers roomName)
            ((st.manager.addUserToRoom roomName sid username color).2.drawingState.getAllState))
  ∧ (∀ room : Room, st.manager.getRoom roomName = some room →
      (st.manager.addUserToRoom roomName sid username color).2.drawingState.getAllState
        = (room.drawingState.strokes, room.drawingState.historyIndex))
  ∧ (handleEvent st7 (.joinRoom 2 "r" "u2" "#4ECDC4")).2.head?
        = some (2, .roomJoined 2 "#4ECDC4"
            [⟨1, "u1", "#FF6B6B", ⟨0, 0⟩⟩, ⟨2, "u2", "#4ECDC4", ⟨0, 0⟩⟩]
            ([sA, sB], 0)) := by
  refine ⟨?_, fun room hsome => ?_, by decide⟩
  · simp [handleEvent, hconn]
  · rw [RoomManager.getRoom] at hsome
    unfold RoomManager.addUserToRoom RoomManager.getOrCreateRoom
    simp [hsome, DrawingState.getAllState]

/-- Witness for C7: the joining socket 2 of `st7` receives `room-joined`
with the verbatim snapshot as its first emitted event. -/
theorem c7_witness :
    (handleEvent st7 (.joinRoom 2 "r" "u2" "#4ECDC4")).2.head?
      = some (2, .roomJoined 2 "#4ECDC4"
          ((st7.manager.addUserToRoom "r" 2 "u2" "#4ECDC4").1.getRoomUsers "r")
          ((st7.manager.addUserToRoom "r" 2 "u2" "#4ECDC4").2.drawingState.getAllState)) :=
  (c7_late_join_snapshot st7 2 ⟨none, []⟩ "r" "u2" "#4ECDC4" (by decide)).1
